import Mathlib

/-!
Shallow embedding of the concurrent task-processing machinery of the
go-practice repository: worker pools (error handling, metrics, priority,
batching, dynamic scaling), channel close semantics, graceful shutdown,
panic recovery, and the cancellation-token and fan-out components that the
specification describes at the interface boundary.
-/

namespace GoPractice

/-- A job as in WorkerPoolWithErrorHandling: ID and Data fields. -/
structure Job where
  id : Nat
  data : String
  deriving DecidableEq

/-- A result as in WorkerPoolWithErrorHandling: JobID, Value and an optional Error. -/
structure JobResult where
  jobID : Nat
  value : String
  error : Option String
  deriving DecidableEq

/-- The per-job body of WorkerPoolWithErrorHandling: a job whose ID is divisible
by 3 gets a Result carrying the error "job N failed"; otherwise the Result value
is "processed-" followed by the Data field. -/
def processJob (job : Job) : JobResult :=
  if job.id % 3 = 0 then
    { jobID := job.id, value := "", error := some ("job " ++ toString job.id ++ " failed") }
  else
    { jobID := job.id, value := "processed-" ++ job.data, error := none }

/-- A worker of WorkerPoolWithErrorHandling draining the jobs channel:
every received job is processed and its Result sent, in order. -/
def errorHandlingWorker (jobs : List Job) : List JobResult :=
  jobs.map processJob

/-- The jobs sent by WorkerPoolWithErrorHandling: IDs 1..numJobs with Data "data-N". -/
def errorHandlingJobs (numJobs : Nat) : List Job :=
  (List.range numJobs).map (fun j => { id := j + 1, data := "data-" ++ toString (j + 1) })

/-- Worker-local state of WorkerPoolWithMetrics: the results sent so far and the
processed / errors counters. -/
structure MetricsState where
  results : List Nat
  processed : Nat
  errors : Nat
  deriving DecidableEq

/-- One loop iteration of a WorkerPoolWithMetrics worker: a job divisible by 4
only increments the error counter (no result is sent); otherwise job*5 is sent
on the results channel and the processed counter increments. -/
def metricsStep (s : MetricsState) (job : Nat) : MetricsState :=
  if job % 4 = 0 then
    { s with errors := s.errors + 1 }
  else
    { results := s.results ++ [job * 5], processed := s.processed + 1, errors := s.errors }

/-- A WorkerPoolWithMetrics worker draining the jobs channel. -/
def metricsRun (jobs : List Nat) : MetricsState :=
  jobs.foldl metricsStep { results := [], processed := 0, errors := 0 }

/-- The jobs sent by WorkerPoolWithMetrics: 1..9. -/
def metricsJobs : List Nat :=
  (List.range 9).map (fun j => j + 1)

/-- The two service lanes of WorkerPoolWithPriority. -/
inductive PrioLane
  | high
  | low
  deriving DecidableEq

/-- The two lane buffers of WorkerPoolWithPriority. -/
structure PrioState where
  highLane : List Nat
  lowLane : List Nat
  deriving DecidableEq

/-- One iteration of the WorkerPoolWithPriority worker loop: the outer select
takes a high-priority job whenever one is available; only the default branch
(High lane empty) takes a low-priority job. The loop keeps no count of
consecutive High-lane services. -/
def prioDequeue (s : PrioState) : Option (PrioLane × Nat × PrioState) :=
  match s.highLane with
  | j :: rest => some (PrioLane.high, j, { highLane := rest, lowLane := s.lowLane })
  | [] =>
    match s.lowLane with
    | j :: rest => some (PrioLane.low, j, { highLane := [], lowLane := rest })
    | [] => none

/-- Runs n dequeues of the priority worker, returning the lane-service trace
and the final lane buffers. -/
def prioRun : Nat → PrioState → List PrioLane × PrioState
  | 0, s => ([], s)
  | n + 1, s =>
    match prioDequeue s with
    | some (l, _, s2) =>
      let r := prioRun n s2
      (l :: r.1, r.2)
    | none => ([], s)

/-- maxWorkers of WorkerPoolWithDynamicScaling. -/
def scaleMaxWorkers : Nat := 5

/-- numJobs of WorkerPoolWithDynamicScaling. -/
def scaleNumJobs : Nat := 15

/-- Shared accounting of WorkerPoolWithDynamicScaling: the workerCount the
mutex protects (incremented by a worker once it starts running), the workers
launched with go but not yet counted, and the sender's job index j. -/
structure ScaleState where
  registered : Nat
  pendingStart : Nat
  nextJob : Nat
  deriving DecidableEq

/-- Interleaved events of WorkerPoolWithDynamicScaling: the sender sends one
job (and, under the mutex, launches one more worker when workerCount <
maxWorkers and the job index is divisible by 3), or a launched worker starts
running and increments workerCount. -/
inductive ScaleEvent
  | send
  | register
  deriving DecidableEq

/-- One enabled event of the dynamic-scaling pool; none when disabled. -/
def scaleStep (s : ScaleState) : ScaleEvent → Option ScaleState
  | ScaleEvent.send =>
    if s.nextJob < scaleNumJobs then
      if s.registered < scaleMaxWorkers ∧ (s.nextJob + 1) % 3 = 0 then
        some { registered := s.registered, pendingStart := s.pendingStart + 1,
               nextJob := s.nextJob + 1 }
      else
        some { registered := s.registered, pendingStart := s.pendingStart,
               nextJob := s.nextJob + 1 }
    else none
  | ScaleEvent.register =>
    if 0 < s.pendingStart then
      some { registered := s.registered + 1, pendingStart := s.pendingStart - 1,
             nextJob := s.nextJob }
    else none

/-- Runs a schedule of events; a disabled event leaves the state unchanged. -/
def scaleRun (evs : List ScaleEvent) (s : ScaleState) : ScaleState :=
  evs.foldl (fun st e => (scaleStep st e).getD st) s

/-- Initial state: the two initial workers are launched but have not yet
incremented workerCount, and no job has been sent. -/
def scaleInit : ScaleState :=
  { registered := 0, pendingStart := 2, nextJob := 0 }

/-- The scaling logic under synchronous registration: a launched worker
increments workerCount before the sender makes its next decision. State is
(workerCount, job index), starting from the two initial workers counted. -/
def syncScaleStep (s : Nat × Nat) : Nat × Nat :=
  if s.2 < scaleNumJobs then
    if s.1 < scaleMaxWorkers ∧ (s.2 + 1) % 3 = 0 then (s.1 + 1, s.2 + 1)
    else (s.1, s.2 + 1)
  else s

/-- n sender steps of the synchronous scaling model. -/
def syncScaleRun : Nat → Nat × Nat
  | 0 => (2, 0)
  | n + 1 => syncScaleStep (syncScaleRun n)

/-- Invariant of the interleaved scaling model: total launched workers are
bounded by the two initial ones plus one per multiple of 3 among sent jobs. -/
def ScaleInv (s : ScaleState) : Prop :=
  s.registered + s.pendingStart ≤ 2 + s.nextJob / 3 ∧ s.nextJob ≤ scaleNumJobs

/-- Worker-local state of WorkerPoolWithBatching: the batch being accumulated
and the batches already sent on the results channel. -/
structure BatchAcc where
  batch : List Nat
  emitted : List (List Nat)
  deriving DecidableEq

/-- One loop iteration of a WorkerPoolWithBatching worker: append the job to
the batch; once the batch reaches batchSize, send it and start a fresh one. -/
def batchStep (maxSize : Nat) (s : BatchAcc) (job : Nat) : BatchAcc :=
  let b := s.batch ++ [job]
  if b.length = maxSize then { batch := [], emitted := s.emitted ++ [b] }
  else { batch := b, emitted := s.emitted }

/-- The final flush after the jobs channel closes: the remaining items are
sent only if the residual batch is non-empty. -/
def batchFinal (s : BatchAcc) : List (List Nat) :=
  if 0 < s.batch.length then s.emitted ++ [s.batch] else s.emitted

/-- A WorkerPoolWithBatching worker draining the jobs channel and flushing
the remainder. -/
def batchWorker (maxSize : Nat) (jobs : List Nat) : List (List Nat) :=
  batchFinal (jobs.foldl (batchStep maxSize) { batch := [], emitted := [] })

/-- The body of the goroutine in GoroutineWithPanicRecovery: after its prints
and sleep it panics with "Something went wrong!". A computation that may
panic is embedded as an Except value carrying the panic payload. -/
def goroutineBody : Except String Unit :=
  Except.error "Something went wrong!"

/-- The deferred recover of GoroutineWithPanicRecovery: a panic is caught and
its payload returned, normal completion recovers nothing; in both cases the
goroutine returns and control continues past wg.Wait. -/
def recoverWrap (body : Except String Unit) : Option String :=
  match body with
  | Except.error msg => some msg
  | Except.ok _ => none

/-- Observable outcome of GoroutineWithPanicRecovery: what the deferred
recover caught, and the Results emitted on a results channel — the function
has no results channel, so none are emitted. -/
structure PanicDemo where
  recovered : Option String
  results : List JobResult
  deriving DecidableEq

/-- Running GoroutineWithPanicRecovery. -/
def goroutinePanicRecovery : PanicDemo :=
  { recovered := recoverWrap goroutineBody, results := [] }

/-- A Go channel as the queue of the pools: its buffered values and whether
close has been called. -/
structure GoChan (α : Type) where
  buffer : List α
  closed : Bool
  deriving DecidableEq

/-- An enqueue failure: Go aborts a send on a closed channel (the panic
"send on closed channel"), which the spec names QueueClosed. -/
inductive ChanFailure
  | queueClosed
  deriving DecidableEq

/-- Sending on a channel: fails on a closed channel, otherwise appends. -/
def chanSend {α : Type} (c : GoChan α) (v : α) : Except ChanFailure (GoChan α) :=
  if c.closed then Except.error ChanFailure.queueClosed
  else Except.ok { buffer := c.buffer ++ [v], closed := c.closed }

/-- Receiving with the value-ok form: a buffered value arrives with ok = true;
an empty closed channel yields the zero value with ok = false (the normal
"no more jobs" sentinel); an empty open channel blocks (none). -/
def chanRecv {α : Type} [Inhabited α] (c : GoChan α) : Option (α × Bool × GoChan α) :=
  match c.buffer with
  | v :: rest => some (v, true, { buffer := rest, closed := c.closed })
  | [] => if c.closed then some (default, false, c) else none

/-- The consumer loop of ChannelCloseDetection and of a range loop over the
jobs channel: receive until ok = false, collecting the received values;
the Bool reports whether the loop terminated normally (via the close
sentinel) within the given number of iterations. -/
def chanRecvLoop {α : Type} [Inhabited α] : Nat → GoChan α → List α × Bool
  | 0, _ => ([], false)
  | fuel + 1, c =>
    match chanRecv c with
    | none => ([], false)
    | some (_, false, _) => ([], true)
    | some (v, true, c2) =>
      let r := chanRecvLoop fuel c2
      (v :: r.1, r.2)

/-- Status of one worker goroutine of WorkerPoolWithWaitGroup: blocked on the
range over the jobs channel, processing a received job, or returned (its
deferred wg.Done has run). -/
inductive WStatus
  | idle
  | processing (j : Nat)
  | exited
  deriving DecidableEq

/-- The job a worker currently holds, if any. -/
def jobOf : WStatus → Option Nat
  | WStatus.processing j => some j
  | _ => none

/-- The jobs currently held by the workers. -/
def inflight (ws : List WStatus) : List Nat :=
  ws.filterMap jobOf

/-- The worker body of WorkerPoolWithWaitGroup computes job * job. -/
def sq (j : Nat) : Nat := j * j

/-- State of WorkerPoolWithWaitGroup after the sender has sent all jobs into
the buffered jobs channel and closed it: the remaining jobs channel buffer,
the workers, the results channel buffer, and whether close(results) has run. -/
structure PoolState where
  queue : List Nat
  workers : List WStatus
  results : List Nat
  resultsClosed : Bool
  deriving DecidableEq

/-- Interleaved events of WorkerPoolWithWaitGroup: a worker receives a job
from the channel, a worker finishes its job and sends the result, a worker
sees the closed empty channel and returns, and the main goroutine returns
from wg.Wait and closes the results channel. -/
inductive PoolEvent
  | take (i : Nat)
  | finish (i : Nat)
  | wexit (i : Nat)
  | closeResults
  deriving DecidableEq

/-- One enabled event of the pool; none when the event is disabled. A take
needs an idle worker and a buffered job; a finish needs a processing worker;
a worker returns only when the closed channel is empty; close(results) runs
only once wg.Wait has seen every worker done. -/
def poolStep (s : PoolState) : PoolEvent → Option PoolState
  | PoolEvent.take i =>
    match s.workers.get? i, s.queue with
    | some WStatus.idle, j :: rest =>
      some { queue := rest, workers := s.workers.set i (WStatus.processing j),
             results := s.results, resultsClosed := s.resultsClosed }
    | _, _ => none
  | PoolEvent.finish i =>
    match s.workers.get? i with
    | some (WStatus.processing j) =>
      some { queue := s.queue, workers := s.workers.set i WStatus.idle,
             results := s.results ++ [sq j], resultsClosed := s.resultsClosed }
    | _ => none
  | PoolEvent.wexit i =>
    match s.workers.get? i, s.queue with
    | some WStatus.idle, [] =>
      some { queue := [], workers := s.workers.set i WStatus.exited,
             results := s.results, resultsClosed := s.resultsClosed }
    | _, _ => none
  | PoolEvent.closeResults =>
    if s.workers.all (fun w => w = WStatus.exited) ∧ s.resultsClosed = false then
      some { queue := s.queue, workers := s.workers, results := s.results,
             resultsClosed := true }
    else none

/-- Runs a schedule of events; a disabled event leaves the state unchanged. -/
def poolRun (evs : List PoolEvent) (s : PoolState) : PoolState :=
  evs.foldl (fun st e => (poolStep st e).getD st) s

/-- Initial state of WorkerPoolWithWaitGroup once the sender goroutine has
sent every job and closed the jobs channel: all n workers idle. -/
def poolInit (jobs : List Nat) (n : Nat) : PoolState :=
  { queue := jobs, workers := List.replicate n WStatus.idle,
    results := [], resultsClosed := false }

/-- Invariant tying a reachable pool state to the submitted jobs. -/
def PoolInv (jobs : List Nat) (s : PoolState) : Prop :=
  ((↑s.results + ↑((inflight s.workers).map sq) + ↑(s.queue.map sq) : Multiset Nat)
      = ↑(jobs.map sq)) ∧
  ((∃ w ∈ s.workers, w = WStatus.exited) → s.queue = []) ∧
  (s.resultsClosed = true → s.workers.all (fun w => w = WStatus.exited) = true) ∧
  s.workers ≠ []

/-- The concrete schedule of the demo shape: worker 0 serially takes and
finishes the eight jobs, all four workers return, the results channel is
closed. -/
def poolDemoSched : List PoolEvent :=
  [PoolEvent.take 0, PoolEvent.finish 0, PoolEvent.take 0, PoolEvent.finish 0,
   PoolEvent.take 0, PoolEvent.finish 0, PoolEvent.take 0, PoolEvent.finish 0,
   PoolEvent.take 0, PoolEvent.finish 0, PoolEvent.take 0, PoolEvent.finish 0,
   PoolEvent.take 0, PoolEvent.finish 0, PoolEvent.take 0, PoolEvent.finish 0,
   PoolEvent.wexit 0, PoolEvent.wexit 1, PoolEvent.wexit 2, PoolEvent.wexit 3,
   PoolEvent.closeResults]

/-- Modelled from the spec: the CancellationToken tree node (the Go context
package used by ContextWithCancellation and ContextWithNestedCancellation is
standard-library code absent from the repository sources). A node holds an
index-based parent reference, its cancelled flag, and its own optional
deadline, per the spec's arena-of-token-nodes design. -/
structure TokenNode where
  parent : Option Nat
  cancelled : Bool
  deadline : Option Nat
  deriving DecidableEq

/-- Modelled from the spec: the parent reference of node i in the arena. -/
def parentOf (arena : List TokenNode) (i : Nat) : Option Nat :=
  match arena.get? i with
  | some n => n.parent
  | none => none

/-- Modelled from the spec: the fuel-bounded chain of a node and its
ancestors, following parent references. -/
def ancChain (arena : List TokenNode) : Nat → Nat → List Nat
  | 0, i => [i]
  | fuel + 1, i =>
    i :: (match parentOf arena i with
          | some p => ancChain arena fuel p
          | none => [])

/-- Modelled from the spec: the chain of node i and all its ancestors; in a
wellformed arena parent indices strictly decrease, so the arena length is
enough fuel. -/
def tokenChain (arena : List TokenNode) (i : Nat) : List Nat :=
  ancChain arena arena.length i

/-- Modelled from the spec: node i is r itself or a descendant of r. -/
def isDescendant (arena : List TokenNode) (i r : Nat) : Bool :=
  decide (r ∈ tokenChain arena i)

/-- Modelled from the spec: marking r and all its descendants cancelled,
walking the arena with an explicit index. -/
def cancelFrom (arena : List TokenNode) (r : Nat) : Nat → List TokenNode → List TokenNode
  | _, [] => []
  | i, n :: rest =>
    (if isDescendant arena i r then
        { parent := n.parent, cancelled := true, deadline := n.deadline }
      else n) :: cancelFrom arena r (i + 1) rest

/-- Modelled from the spec: one cancellation event — firing token r marks r
and every descendant cancelled, in a single pass over the arena. -/
def cancelToken (arena : List TokenNode) (r : Nat) : List TokenNode :=
  cancelFrom arena r 0 arena

/-- Modelled from the spec: the cancelled flag of node i. -/
def cancelledAt (arena : List TokenNode) (i : Nat) : Bool :=
  match arena.get? i with
  | some n => n.cancelled
  | none => false

/-- Modelled from the spec: the reasons Err() can report. -/
inductive TokenReason
  | cancelledReason
  | deadlineExceeded
  deriving DecidableEq

/-- Modelled from the spec: Err() of token i — non-nil exactly when the
token has been cancelled. -/
def tokErr (arena : List TokenNode) (i : Nat) : Option TokenReason :=
  if cancelledAt arena i then some TokenReason.cancelledReason else none

/-- Modelled from the spec: minimum of two optional deadlines, where none
means no deadline. -/
def oMinD : Option Nat → Option Nat → Option Nat
  | none, b => b
  | some a, none => some a
  | some a, some b => some (min a b)

/-- Modelled from the spec: the deadlines along a node's ancestor chain. -/
def chainDeadlines (arena : List TokenNode) (i : Nat) : List Nat :=
  (tokenChain arena i).filterMap (fun k =>
    match arena.get? k with
    | some n => n.deadline
    | none => none)

/-- Modelled from the spec: the effective deadline of node i — the minimum
of its own deadline and its ancestors' deadlines. -/
def effDeadline (arena : List TokenNode) (i : Nat) : Option Nat :=
  (chainDeadlines arena i).foldr (fun d acc => oMinD (some d) acc) none

/-- Modelled from the spec: arena wellformedness — parent references point
strictly downward, as produced by appending children to the arena. -/
def WFArena (arena : List TokenNode) : Prop :=
  ∀ i n, arena.get? i = some n → ∀ p, n.parent = some p → p < i

/-- Modelled from the spec: a freshly derived cancellable child of p. -/
def cancelChild (p : Nat) : TokenNode :=
  { parent := some p, cancelled := false, deadline := none }

/-- Modelled from the spec: a freshly derived child of p with deadline t. -/
def deadlineChild (p t : Nat) : TokenNode :=
  { parent := some p, cancelled := false, deadline := some t }

/-- Modelled from the spec: WithCancel(parent) — derive a child token of p,
returning the extended arena and the child's index. -/
def withCancel (arena : List TokenNode) (p : Nat) : List TokenNode × Nat :=
  (arena ++ [cancelChild p], arena.length)

/-- Modelled from the spec: WithDeadline(parent, t) — derive a child token
of p carrying deadline t. -/
def withDeadline (arena : List TokenNode) (p : Nat) (t : Nat) : List TokenNode × Nat :=
  (arena ++ [deadlineChild p t], arena.length)

/-- Modelled from the spec: a concrete token tree — a root, two children of
the root (one with deadline 50), and a grandchild with deadline 30. -/
def tokenArenaEx : List TokenNode :=
  [{ parent := none, cancelled := false, deadline := none },
   { parent := some 0, cancelled := false, deadline := some 50 },
   { parent := some 0, cancelled := false, deadline := none },
   { parent := some 1, cancelled := false, deadline := some 30 }]

/-- The input values sent into FanOutBasic's shared input channel: 1..6,
after which the channel is closed. -/
def fanInput : List Nat :=
  (List.range 6).map (fun i => i + 1)

/-- The values consumed from FanOutBasic's shared input channel by competing
consumer c (c = 0, 1, 2 in program order), under a receive schedule: entry k
of the schedule names the consumer that performs the k-th receive. Go
delivers each buffered value to exactly one of the consumers ranging over
the channel; which one is scheduling-dependent. -/
def fanConsumed (c : Nat) (input sched : List Nat) : List Nat :=
  ((sched.zip input).filter (fun p => decide (p.1 = c))).map Prod.snd

/-- The values consumer c of FanOutBasic sends on its own output channel:
each consumed value multiplied by the consumer's factor — the three
consumers send data*2, data*3 and data*4 respectively. -/
def fanLaneOut (c : Nat) (input sched : List Nat) : List Nat :=
  (fanConsumed c input sched).map (fun d => d * (c + 2))

theorem metricsRun_results_length (jobs : List Nat) (s : MetricsState) :
    (jobs.foldl metricsStep s).results.length
      = s.results.length + (jobs.filter (fun j => decide (¬ j % 4 = 0))).length := by
  induction jobs generalizing s with
  | nil => simp
  | cons j rest ih =>
    by_cases h : j % 4 = 0 <;>
      simp [List.foldl_cons, metricsStep, h, ih, List.filter_cons] <;> omega

theorem metricsRun_errors (jobs : List Nat) (s : MetricsState) :
    (jobs.foldl metricsStep s).errors
      = s.errors + (jobs.filter (fun j => decide (j % 4 = 0))).length := by
  induction jobs generalizing s with
  | nil => simp
  | cons j rest ih =>
    by_cases h : j % 4 = 0 <;>
      simp [List.foldl_cons, metricsStep, h, ih, List.filter_cons] <;> omega

/-- C1 counterexample. The claim requires that every worker-pool variant,
including the metrics-collecting pool, delivers exactly one Result per
submitted Job. In WorkerPoolWithMetrics the nine submitted jobs yield only
seven results: a job divisible by 4 sends nothing on the results channel
(job 4's would-be result 20 is absent), so the results count differs from
the jobs count. -/
theorem C1_metrics_drop_counterexample :
    metricsJobs.length = 9 ∧
    (metricsRun metricsJobs).results.length = 7 ∧
    (metricsRun metricsJobs).results.contains 20 = false ∧
    ¬ (metricsRun metricsJobs).results.length = metricsJobs.length := by
  decide

/-- C1 amended: in the error-handling pool every submitted Job yields exactly
one Result, in submission order, with a failing Job's error embedded in its
Result; in the metrics pool a Job with ID divisible by 4 yields no Result at
all — only the worker's error counter increments — so its results count equals
the count of jobs not divisible by 4 and its error counter counts the rest. -/
theorem C1_result_accounting (jobs : List Job) (js : List Nat) :
    (errorHandlingWorker jobs).length = jobs.length ∧
    (∀ k, (errorHandlingWorker jobs).get? k = (jobs.get? k).map processJob) ∧
    (metricsRun js).results.length = (js.filter (fun j => decide (¬ j % 4 = 0))).length ∧
    (metricsRun js).errors = (js.filter (fun j => decide (j % 4 = 0))).length := by
  refine ⟨by simp [errorHandlingWorker], ?_, ?_, ?_⟩
  · intro k
    simp [errorHandlingWorker, List.getElem?_map]
  · simpa using metricsRun_results_length js { results := [], processed := 0, errors := 0 }
  · simpa using metricsRun_errors js { results := [], processed := 0, errors := 0 }

/-- C1 amended, instantiated at the concrete inputs of the two demos. -/
theorem C1_result_accounting_witness :
    (errorHandlingWorker (errorHandlingJobs 6)).length = (errorHandlingJobs 6).length ∧
    (∀ k, (errorHandlingWorker (errorHandlingJobs 6)).get? k
        = ((errorHandlingJobs 6).get? k).map processJob) ∧
    (metricsRun metricsJobs).results.length
        = (metricsJobs.filter (fun j => decide (¬ j % 4 = 0))).length ∧
    (metricsRun metricsJobs).errors
        = (metricsJobs.filter (fun j => decide (j % 4 = 0))).length :=
  C1_result_accounting (errorHandlingJobs 6) metricsJobs

/-- C10: in WorkerPoolWithErrorHandling the Result of a Job carries an error
exactly when the Job ID is divisible by 3, and otherwise its value is
"processed-" concatenated with the Job's Data — a deterministic function of
the Job alone. -/
theorem C10_error_iff_div3 (job : Job) :
    ((processJob job).error.isSome ↔ job.id % 3 = 0) ∧
    (job.id % 3 = 0 ∨
      ((processJob job).value = "processed-" ++ job.data ∧ (processJob job).error = none)) ∧
    (processJob job).jobID = job.id := by
  by_cases h : job.id % 3 = 0 <;> simp [processJob, h]

/-- C10 instantiated at job 3 (failing) via the general theorem. -/
theorem C10_error_iff_div3_witness :
    (((processJob { id := 3, data := "data-3" }).error.isSome ↔ 3 % 3 = 0) ∧
      (3 % 3 = 0 ∨
        ((processJob { id := 3, data := "data-3" }).value = "processed-" ++ "data-3" ∧
          (processJob { id := 3, data := "data-3" }).error = none)) ∧
      (processJob { id := 3, data := "data-3" }).jobID = 3) :=
  C10_error_iff_div3 { id := 3, data := "data-3" }

theorem prioRun_all_high (hs ls : List Nat) :
    prioRun hs.length { highLane := hs, lowLane := ls }
      = (List.replicate hs.length PrioLane.high, { highLane := [], lowLane := ls }) := by
  induction hs with
  | nil => rfl
  | cons j rest ih => simp [prioRun, prioDequeue, ih, List.replicate_succ]

/-- C2 counterexample. With both lanes non-empty throughout (five High jobs,
one Low job), five consecutive dequeues all serve the High lane and the Low
job is still waiting afterwards: no configured ceiling K forces a Low-lane
service, refuting the claim for every K below 5 at this input (and the
amended theorem extends the starvation run to every K). -/
theorem C2_no_fairness_counterexample :
    (prioRun 5 { highLane := [1, 2, 3, 4, 5], lowLane := [6] }).1
        = List.replicate 5 PrioLane.high ∧
    (prioRun 5 { highLane := [1, 2, 3, 4, 5], lowLane := [6] }).2.lowLane = [6] ∧
    (prioRun 5 { highLane := [1, 2, 3, 4, 5], lowLane := [6] }).1.count PrioLane.low = 0 := by
  decide

/-- C2 amended: the priority worker serves the High lane whenever it is
non-empty and serves the Low lane only when the High lane is empty; no
starvation ceiling exists — for every K, a run of K+1 dequeues with a Low job
waiting serves High K+1 consecutive times and leaves the Low job unserved. -/
theorem C2_high_always_first (K j0 : Nat) :
    (∀ s : PrioState, s.highLane ≠ [] →
      ∃ j s2, prioDequeue s = some (PrioLane.high, j, s2)) ∧
    (∀ s : PrioState, s.highLane = [] → s.lowLane ≠ [] →
      ∃ j s2, prioDequeue s = some (PrioLane.low, j, s2)) ∧
    (prioRun (K + 1) { highLane := List.replicate (K + 1) 7, lowLane := [j0] }).1
        = List.replicate (K + 1) PrioLane.high ∧
    (prioRun (K + 1) { highLane := List.replicate (K + 1) 7, lowLane := [j0] }).2.lowLane
        = [j0] := by
  refine ⟨?_, ?_, ?_, ?_⟩
  · intro s hs
    match h : s.highLane with
    | [] => exact absurd h hs
    | j :: rest =>
      exact ⟨j, { highLane := rest, lowLane := s.lowLane }, by simp [prioDequeue, h]⟩
  · intro s hs hl
    match h : s.lowLane with
    | [] => exact absurd h hl
    | j :: rest =>
      exact ⟨j, { highLane := [], lowLane := rest }, by simp [prioDequeue, hs, h]⟩
  · have h := prioRun_all_high (List.replicate (K + 1) 7) [j0]
    rw [List.length_replicate] at h
    rw [h]
  · have h := prioRun_all_high (List.replicate (K + 1) 7) [j0]
    rw [List.length_replicate] at h
    rw [h]

/-- C2 amended, instantiated at K = 4 with Low job 6. -/
theorem C2_high_always_first_witness :
    (∀ s : PrioState, s.highLane ≠ [] →
      ∃ j s2, prioDequeue s = some (PrioLane.high, j, s2)) ∧
    (∀ s : PrioState, s.highLane = [] → s.lowLane ≠ [] →
      ∃ j s2, prioDequeue s = some (PrioLane.low, j, s2)) ∧
    (prioRun 5 { highLane := List.replicate 5 7, lowLane := [6] }).1
        = List.replicate 5 PrioLane.high ∧
    (prioRun 5 { highLane := List.replicate 5 7, lowLane := [6] }).2.lowLane = [6] :=
  C2_high_always_first 4 6

theorem scaleInv_step (s : ScaleState) (e : ScaleEvent) (h : ScaleInv s) :
    ScaleInv ((scaleStep s e).getD s) := by
  obtain ⟨h1, h2⟩ := h
  cases e with
  | send =>
    by_cases hj : s.nextJob < scaleNumJobs
    · simp only [scaleNumJobs] at hj
      by_cases hc : s.registered < scaleMaxWorkers ∧ (s.nextJob + 1) % 3 = 0
      · obtain ⟨hc1, hc2⟩ := hc
        simp only [scaleStep, scaleNumJobs, if_pos hj,
          if_pos (And.intro hc1 hc2), Option.getD_some, ScaleInv]
        exact ⟨by omega, by omega⟩
      · simp only [scaleStep, scaleNumJobs, if_pos hj, if_neg hc, Option.getD_some, ScaleInv]
        exact ⟨by omega, by omega⟩
    · simp only [scaleStep, scaleNumJobs] at hj ⊢
      simp only [if_neg hj, Option.getD_none]
      exact ⟨h1, h2⟩
  | register =>
    by_cases hp : 0 < s.pendingStart
    · simp only [scaleStep, if_pos hp, Option.getD_some, ScaleInv]
      exact ⟨by omega, h2⟩
    · simp only [scaleStep, if_neg hp, Option.getD_none]
      exact ⟨h1, h2⟩

theorem scaleInv_run (evs : List ScaleEvent) (s : ScaleState) (h : ScaleInv s) :
    ScaleInv (scaleRun evs s) := by
  induction evs generalizing s with
  | nil => exact h
  | cons e rest ih => exact ih _ (scaleInv_step s e h)

theorem syncScaleRun_bounds (n : Nat) :
    2 ≤ (syncScaleRun n).1 ∧ (syncScaleRun n).1 ≤ scaleMaxWorkers := by
  induction n with
  | zero => simp [syncScaleRun, scaleMaxWorkers]
  | succ n ih =>
    obtain ⟨ih1, ih2⟩ := ih
    simp only [syncScaleRun, syncScaleStep]
    by_cases hj : (syncScaleRun n).2 < scaleNumJobs
    · by_cases hc : (syncScaleRun n).1 < scaleMaxWorkers ∧ ((syncScaleRun n).2 + 1) % 3 = 0
      · simp only [if_pos hj, if_pos hc]
        exact ⟨by omega, by omega⟩
      · simp only [if_pos hj, if_neg hc]
        exact ⟨ih1, ih2⟩
    · simp only [if_neg hj]
      exact ⟨ih1, ih2⟩

/-- C3 counterexample. Before any launched worker runs, workerCount is 0
(below any configured minimum); and a schedule that delays every worker
start until all fifteen jobs are sent makes all five scale-up checks pass
against the stale count 0, after which the seven launched workers register
and workerCount reaches 7, exceeding maxWorkers = 5. -/
theorem C3_scale_bound_counterexample :
    scaleInit.registered = 0 ∧
    (scaleRun (List.replicate 15 ScaleEvent.send ++ List.replicate 7 ScaleEvent.register)
        scaleInit).registered = 7 ∧
    scaleMaxWorkers = 5 ∧
    ¬ (scaleRun (List.replicate 15 ScaleEvent.send ++ List.replicate 7 ScaleEvent.register)
        scaleInit).registered ≤ scaleMaxWorkers := by
  decide

/-- C3 amended: in every reachable state of the dynamic-scaling pool the
launched workers (counted plus pending) never exceed 7 — the two initial
workers plus the five scale-up opportunities — so workerCount is bounded by
2 + maxWorkers but not by maxWorkers itself; under synchronous registration
the count stays within [2, maxWorkers]; there is no configured lower bound
taking effect before the first worker registers (the count starts at 0). -/
theorem C3_scale_bounds (evs : List ScaleEvent) (n : Nat) :
    (scaleRun evs scaleInit).registered + (scaleRun evs scaleInit).pendingStart ≤ 7 ∧
    (scaleRun evs scaleInit).registered ≤ 2 + scaleMaxWorkers ∧
    2 ≤ (syncScaleRun n).1 ∧
    (syncScaleRun n).1 ≤ scaleMaxWorkers ∧
    scaleInit.registered = 0 := by
  have hinit : ScaleInv scaleInit := by
    constructor
    · simp [scaleInit]
    · simp [scaleInit, scaleNumJobs]
  have hrun := scaleInv_run evs scaleInit hinit
  obtain ⟨hb, hj⟩ := hrun
  have h7 : (scaleRun evs scaleInit).registered + (scaleRun evs scaleInit).pendingStart ≤ 7 := by
    have : (scaleRun evs scaleInit).nextJob / 3 ≤ 5 := by
      simp only [scaleNumJobs] at hj
      omega
    omega
  have hsync := syncScaleRun_bounds n
  exact ⟨h7, by simp only [scaleMaxWorkers]; omega, hsync.1, hsync.2, rfl⟩

/-- C3 amended, instantiated at a one-event schedule and three sync steps. -/
theorem C3_scale_bounds_witness :
    (scaleRun [ScaleEvent.send] scaleInit).registered
        + (scaleRun [ScaleEvent.send] scaleInit).pendingStart ≤ 7 ∧
    (scaleRun [ScaleEvent.send] scaleInit).registered ≤ 2 + scaleMaxWorkers ∧
    2 ≤ (syncScaleRun 3).1 ∧
    (syncScaleRun 3).1 ≤ scaleMaxWorkers ∧
    scaleInit.registered = 0 :=
  C3_scale_bounds [ScaleEvent.send] 3

theorem batchFold_inv (maxSize : Nat) (jobs : List Nat) (s : BatchAcc)
    (hms : 0 < maxSize) (hb : s.batch.length < maxSize)
    (he : ∀ b ∈ s.emitted, 0 < b.length ∧ b.length ≤ maxSize) :
    (jobs.foldl (batchStep maxSize) s).batch.length < maxSize ∧
    (∀ b ∈ (jobs.foldl (batchStep maxSize) s).emitted, 0 < b.length ∧ b.length ≤ maxSize) ∧
    (jobs.foldl (batchStep maxSize) s).emitted.flatten ++ (jobs.foldl (batchStep maxSize) s).batch
      = s.emitted.flatten ++ (s.batch ++ jobs) := by
  induction jobs generalizing s with
  | nil => exact ⟨hb, he, by simp⟩
  | cons j rest ih =>
    rw [List.foldl_cons]
    by_cases hlen : (s.batch ++ [j]).length = maxSize
    · have hstep : batchStep maxSize s j
          = { batch := [], emitted := s.emitted ++ [s.batch ++ [j]] } := by
        simp only [batchStep, if_pos hlen]
      rw [hstep]
      have he2 : ∀ b ∈ s.emitted ++ [s.batch ++ [j]], 0 < b.length ∧ b.length ≤ maxSize := by
        intro b hbmem
        rcases List.mem_append.mp hbmem with hold | hnew
        · exact he b hold
        · have : b = s.batch ++ [j] := List.mem_singleton.mp hnew
          subst this
          constructor
          · simp
          · exact le_of_eq hlen
      obtain ⟨r1, r2, r3⟩ := ih { batch := [], emitted := s.emitted ++ [s.batch ++ [j]] }
        (by simpa using hms) he2
      refine ⟨r1, r2, ?_⟩
      rw [r3]
      simp
    · have hstep : batchStep maxSize s j
          = { batch := s.batch ++ [j], emitted := s.emitted } := by
        simp only [batchStep, if_neg hlen]
      rw [hstep]
      have hb2 : (s.batch ++ [j]).length < maxSize := by
        simp only [List.length_append, List.length_singleton] at hlen ⊢
        omega
      obtain ⟨r1, r2, r3⟩ := ih { batch := s.batch ++ [j], emitted := s.emitted } hb2 he
      refine ⟨r1, r2, ?_⟩
      rw [r3]
      simp

/-- C5: every batch emitted by the batching worker has size strictly greater
than 0 and at most maxSize (in particular an empty accumulator never emits an
empty batch, and the final flush fires only on a non-empty residue), and the
concatenation of the emitted batches is exactly the input job sequence, so
each accumulation cycle yields exactly one batch and no job is duplicated or
dropped. -/
theorem C5_batch_bounds (maxSize : Nat) (jobs : List Nat) (hms : 0 < maxSize) :
    (∀ b ∈ batchWorker maxSize jobs, 0 < b.length ∧ b.length ≤ maxSize) ∧
    (batchWorker maxSize jobs).flatten = jobs := by
  obtain ⟨r1, r2, r3⟩ := batchFold_inv maxSize jobs { batch := [], emitted := [] }
    hms (by simpa using hms) (by intro b hbmem; simp at hbmem)
  simp only [List.flatten, List.nil_append] at r3
  unfold batchWorker batchFinal
  by_cases hres : 0 < (jobs.foldl (batchStep maxSize) { batch := [], emitted := [] }).batch.length
  · rw [if_pos hres]
    constructor
    · intro b hbmem
      rcases List.mem_append.mp hbmem with hold | hnew
      · exact r2 b hold
      · have : b = (jobs.foldl (batchStep maxSize) { batch := [], emitted := [] }).batch :=
          List.mem_singleton.mp hnew
        subst this
        exact ⟨hres, le_of_lt r1⟩
    · rw [List.flatten_append]
      simpa using r3
  · rw [if_neg hres]
    have hempty : (jobs.foldl (batchStep maxSize) { batch := [], emitted := [] }).batch = [] := by
      cases h : (jobs.foldl (batchStep maxSize) { batch := [], emitted := [] }).batch with
      | nil => rfl
      | cons x xs => rw [h] at hres; simp at hres
    refine ⟨r2, ?_⟩
    rw [hempty, List.append_nil] at r3
    simpa using r3

/-- C5 instantiated at the demo's batchSize 3 and jobs 1..7 (two full batches
and a final flush of one). -/
theorem C5_batch_bounds_witness :
    0 < 3 ∧
    ((∀ b ∈ batchWorker 3 [1, 2, 3, 4, 5, 6, 7], 0 < b.length ∧ b.length ≤ 3) ∧
      (batchWorker 3 [1, 2, 3, 4, 5, 6, 7]).flatten = [1, 2, 3, 4, 5, 6, 7]) :=
  ⟨by decide, C5_batch_bounds 3 [1, 2, 3, 4, 5, 6, 7] (by decide)⟩

/-- C6 counterexample. The claim requires the caught fault to be converted
into a Result with Err = WorkerFault. In GoroutineWithPanicRecovery the
deferred recover does catch the panic payload, but the function emits no
Result whatsoever — there is no Result carrying any error — and the
recovering goroutine returns instead of resuming. -/
theorem C6_no_workerfault_result_counterexample :
    goroutinePanicRecovery.recovered = some "Something went wrong!" ∧
    goroutinePanicRecovery.results = [] ∧
    ¬ ∃ r ∈ goroutinePanicRecovery.results, r.error.isSome := by
  refine ⟨rfl, rfl, ?_⟩
  simp [goroutinePanicRecovery]

/-- C6 amended: the deferred recover catches any panic payload so the fault
never escapes the goroutine boundary, but no WorkerFault Result is emitted
for it; per-job failure isolation exists only in the error-handling pool,
where a failing job yields a Result carrying its error and the worker still
processes every job before and after it. -/
theorem C6_fault_isolation (m : String) (pre post : List Job) (fj : Job)
    (h : fj.id % 3 = 0) :
    recoverWrap (Except.error m) = some m ∧
    goroutinePanicRecovery.results = [] ∧
    (processJob fj).error.isSome = true ∧
    errorHandlingWorker (pre ++ fj :: post)
      = errorHandlingWorker pre ++ processJob fj :: errorHandlingWorker post := by
  refine ⟨rfl, rfl, ?_, ?_⟩
  · simp [processJob, h]
  · simp [errorHandlingWorker]

/-- C6 amended, instantiated: the demo's panic payload, and failing job 3
between jobs 1 and 2 of the error-handling pool. -/
theorem C6_fault_isolation_witness :
    recoverWrap (Except.error "Something went wrong!") = some "Something went wrong!" ∧
    goroutinePanicRecovery.results = [] ∧
    (processJob { id := 3, data := "data-3" }).error.isSome = true ∧
    errorHandlingWorker ([{ id := 1, data := "data-1" }]
        ++ { id := 3, data := "data-3" } :: [{ id := 2, data := "data-2" }])
      = errorHandlingWorker [{ id := 1, data := "data-1" }]
        ++ processJob { id := 3, data := "data-3" }
          :: errorHandlingWorker [{ id := 2, data := "data-2" }] :=
  C6_fault_isolation "Something went wrong!" [{ id := 1, data := "data-1" }]
    [{ id := 2, data := "data-2" }] { id := 3, data := "data-3" } (by decide)

theorem chanRecvLoop_closed {α : Type} [Inhabited α] (b : List α) :
    ∀ fuel, b.length < fuel →
      chanRecvLoop fuel { buffer := b, closed := true } = (b, true) := by
  induction b with
  | nil =>
    intro fuel hf
    match fuel, hf with
    | f + 1, _ => rfl
  | cons v rest ih =>
    intro fuel hf
    match fuel, hf with
    | f + 1, hf =>
      have hrest : rest.length < f := by
        simpa [Nat.succ_lt_succ_iff] using hf
      simp [chanRecvLoop, chanRecv, ih f hrest]

/-- C7: a send on a closed channel fails with the QueueClosed failure, while
a receive on an empty closed channel returns the zero value with ok = false —
a sentinel, not an error — and a consumer loop over a closed channel
terminates normally after receiving exactly the buffered jobs. -/
theorem C7_closed_channel (α : Type) [Inhabited α] [DecidableEq α]
    (b : List α) (v : α) (fuel : Nat) (hf : b.length < fuel) :
    chanSend { buffer := b, closed := true } v = Except.error ChanFailure.queueClosed ∧
    chanRecv ({ buffer := [], closed := true } : GoChan α)
      = some (default, false, { buffer := [], closed := true }) ∧
    chanRecvLoop fuel { buffer := b, closed := true } = (b, true) := by
  refine ⟨rfl, rfl, chanRecvLoop_closed b fuel hf⟩

/-- C7 instantiated at ChannelCloseDetection's channel contents 1, 2, 3. -/
theorem C7_closed_channel_witness :
    ([1, 2, 3] : List Nat).length < 4 ∧
    (chanSend { buffer := [1, 2, 3], closed := true } 9
        = Except.error ChanFailure.queueClosed ∧
      chanRecv ({ buffer := [], closed := true } : GoChan Nat)
        = some (default, false, { buffer := [], closed := true }) ∧
      chanRecvLoop 4 { buffer := [1, 2, 3], closed := true } = ([1, 2, 3], true)) :=
  ⟨by decide, C7_closed_channel Nat [1, 2, 3] 9 4 (by decide)⟩

theorem inflight_cons (w : WStatus) (rest : List WStatus) :
    inflight (w :: rest) = (jobOf w).toList ++ inflight rest := by
  cases w <;> simp [inflight, jobOf, List.filterMap_cons]

theorem inflight_set (ws : List WStatus) (i : Nat) (wOld wNew : WStatus)
    (h : ws.get? i = some wOld) :
    (↑(inflight (ws.set i wNew)) + ↑(jobOf wOld).toList : Multiset Nat)
      = ↑(inflight ws) + ↑(jobOf wNew).toList := by
  induction ws generalizing i with
  | nil => simp at h
  | cons w rest ih =>
    cases i with
    | zero =>
      have hw : w = wOld := by simpa using h
      subst hw
      simp only [List.set_cons_zero, inflight_cons, ← Multiset.coe_add]
      abel
    | succ i =>
      have hrec := ih i (by simpa using h)
      simp only [List.set_cons_succ, inflight_cons, ← Multiset.coe_add]
      calc (↑(jobOf w).toList + ↑(inflight (rest.set i wNew)) : Multiset Nat)
            + ↑(jobOf wOld).toList
          = ↑(jobOf w).toList
            + (↑(inflight (rest.set i wNew)) + ↑(jobOf wOld).toList : Multiset Nat) := by
            rw [add_assoc]
        _ = ↑(jobOf w).toList + (↑(inflight rest) + ↑(jobOf wNew).toList : Multiset Nat) := by
            rw [hrec]
        _ = (↑(jobOf w).toList + ↑(inflight rest) : Multiset Nat) + ↑(jobOf wNew).toList := by
            rw [add_assoc]

theorem inflight_all_exited (ws : List WStatus)
    (h : ws.all (fun w => w = WStatus.exited) = true) : inflight ws = [] := by
  induction ws with
  | nil => rfl
  | cons w rest ih =>
    simp only [List.all_cons, Bool.and_eq_true, decide_eq_true_eq] at h
    rw [inflight_cons, ih h.2, h.1]
    rfl

theorem inflight_replicate_idle (n : Nat) :
    inflight (List.replicate n WStatus.idle) = [] := by
  induction n with
  | zero => rfl
  | succ n ih => rw [List.replicate_succ, inflight_cons, ih]; rfl

theorem set_nonempty_of_nonempty (ws : List WStatus) (i : Nat) (w : WStatus)
    (hne : ws ≠ []) : ws.set i w ≠ [] := by
  intro hnil
  have hlen := congrArg List.length hnil
  rw [List.length_set] at hlen
  simp only [List.length_nil] at hlen
  exact hne (List.length_eq_zero.mp hlen)

theorem not_all_exited_of_get (ws : List WStatus) (i : Nat) (w : WStatus)
    (hw : ws.get? i = some w) (hnex : w ≠ WStatus.exited) :
    ¬ ws.all (fun x => x = WStatus.exited) = true := by
  intro hall
  rw [List.all_eq_true] at hall
  have := hall _ (List.get?_mem hw)
  simp only [decide_eq_true_eq] at this
  exact hnex this

theorem poolInv_step (jobs : List Nat) (s : PoolState) (e : PoolEvent)
    (h : PoolInv jobs s) : PoolInv jobs ((poolStep s e).getD s) := by
  obtain ⟨hm, hq, hc, hne⟩ := h
  cases e with
  | take i =>
    simp only [poolStep]
    split
    case h_2 => exact ⟨hm, hq, hc, hne⟩
    case h_1 =>
      rename_i j rest hw hqe
      simp only [Option.getD_some]
      refine ⟨?_, ?_, ?_, ?_⟩
      · have hset := inflight_set s.workers i WStatus.idle (WStatus.processing j) hw
        have hmap := congrArg (Multiset.map sq) hset
        simp only [jobOf, Option.toList_none, Option.toList_some, Multiset.map_add,
          Multiset.map_coe, List.map_nil, List.map_cons, Multiset.coe_nil, add_zero] at hmap
        have hqmap : (↑(List.map sq (j :: rest)) : Multiset Nat)
            = ↑([sq j] : List Nat) + ↑(List.map sq rest) :=
          (Multiset.coe_add [sq j] (List.map sq rest)).symm
        rw [hqe] at hm
        rw [hqmap] at hm
        rw [hmap]
        rw [← hm]
        abel
      · intro hex
        obtain ⟨w, hwmem, hwex⟩ := hex
        rcases List.mem_or_eq_of_mem_set hwmem with hold | hnew
        · have hcontra : s.queue = [] := hq ⟨w, hold, hwex⟩
          rw [hqe] at hcontra
          exact absurd hcontra (by simp)
        · rw [hnew] at hwex
          exact absurd hwex (by simp)
      · intro hcl
        exact absurd (hc hcl) (not_all_exited_of_get s.workers i WStatus.idle hw (by simp))
      · exact set_nonempty_of_nonempty s.workers i (WStatus.processing j) hne
  | finish i =>
    simp only [poolStep]
    split
    case h_2 => exact ⟨hm, hq, hc, hne⟩
    case h_1 =>
      rename_i j hw
      simp only [Option.getD_some]
      refine ⟨?_, ?_, ?_, ?_⟩
      · have hset := inflight_set s.workers i (WStatus.processing j) WStatus.idle hw
        have hmap := congrArg (Multiset.map sq) hset
        simp only [jobOf, Option.toList_none, Option.toList_some, Multiset.map_add,
          Multiset.map_coe, List.map_nil, List.map_cons, Multiset.coe_nil, add_zero] at hmap
        have hres : (↑(s.results ++ [sq j]) : Multiset Nat)
            = ↑s.results + ↑([sq j] : List Nat) :=
          (Multiset.coe_add s.results [sq j]).symm
        rw [hres]
        rw [← hm]
        rw [← hmap]
        abel
      · intro hex
        obtain ⟨w, hwmem, hwex⟩ := hex
        rcases List.mem_or_eq_of_mem_set hwmem with hold | hnew
        · exact hq ⟨w, hold, hwex⟩
        · rw [hnew] at hwex
          exact absurd hwex (by simp)
      · intro hcl
        exact absurd (hc hcl)
          (not_all_exited_of_get s.workers i (WStatus.processing j) hw (by simp))
      · exact set_nonempty_of_nonempty s.workers i WStatus.idle hne
  | wexit i =>
    simp only [poolStep]
    split
    case h_2 => exact ⟨hm, hq, hc, hne⟩
    case h_1 =>
      rename_i hw hqe
      simp only [Option.getD_some]
      refine ⟨?_, ?_, ?_, ?_⟩
      · have hset := inflight_set s.workers i WStatus.idle WStatus.exited hw
        have hmap := congrArg (Multiset.map sq) hset
        simp only [jobOf, Option.toList_none, Option.toList_some, Multiset.map_add,
          Multiset.map_coe, List.map_nil, Multiset.coe_nil, add_zero] at hmap
        rw [hqe] at hm
        rw [hmap]
        exact hm
      · intro _
        rfl
      · intro hcl
        exact absurd (hc hcl) (not_all_exited_of_get s.workers i WStatus.idle hw (by simp))
      · exact set_nonempty_of_nonempty s.workers i WStatus.exited hne
  | closeResults =>
    simp only [poolStep]
    split
    case isTrue hg => exact ⟨hm, hq, fun _ => hg.1, hne⟩
    case isFalse => exact ⟨hm, hq, hc, hne⟩

theorem poolInv_run (jobs : List Nat) (evs : List PoolEvent) (s : PoolState)
    (h : PoolInv jobs s) : PoolInv jobs (poolRun evs s) := by
  induction evs generalizing s with
  | nil => exact h
  | cons e rest ih => exact ih _ (poolInv_step jobs s e h)

theorem poolInv_init (jobs : List Nat) (n : Nat) (hn : 0 < n) :
    PoolInv jobs (poolInit jobs n) := by
  refine ⟨?_, ?_, ?_, ?_⟩
  · simp [poolInit, inflight_replicate_idle]
  · intro hex
    obtain ⟨w, hwmem, hwex⟩ := hex
    simp only [poolInit, List.mem_replicate] at hwmem
    rw [hwmem.2] at hwex
    exact absurd hwex (by simp)
  · intro hcl
    simp [poolInit] at hcl
  · simp only [poolInit]
    intro hnil
    have := congrArg List.length hnil
    simp at this
    omega

/-- C8: graceful shutdown drains in-flight work — in every interleaving of
receives, completions, worker returns and the close of the results channel,
once close(results) has run (which requires wg.Wait to have seen all workers
return, each of which requires the closed jobs channel to be empty), the
results buffer holds exactly one result per submitted job: the multiset of
results equals the squares of the submitted jobs. -/
theorem C8_shutdown_drains (jobs : List Nat) (n : Nat) (evs : List PoolEvent)
    (hn : 0 < n)
    (hclosed : (poolRun evs (poolInit jobs n)).resultsClosed = true) :
    (↑(poolRun evs (poolInit jobs n)).results : Multiset Nat) = ↑(jobs.map sq) := by
  obtain ⟨hm, hq, hc, hne⟩ := poolInv_run jobs evs (poolInit jobs n) (poolInv_init jobs n hn)
  have hall := hc hclosed
  have hex : ∃ w ∈ (poolRun evs (poolInit jobs n)).workers, w = WStatus.exited := by
    match hws : (poolRun evs (poolInit jobs n)).workers with
    | [] => exact absurd hws hne
    | w :: rest =>
      rw [hws] at hall
      simp only [List.all_cons, Bool.and_eq_true, decide_eq_true_eq] at hall
      exact ⟨w, by simp, hall.1⟩
  have hqe := hq hex
  have hinf := inflight_all_exited _ hall
  rw [hqe, hinf] at hm
  simpa using hm

/-- C8 instantiated at the demo's 8 jobs and 4 workers on a concrete
schedule. -/
theorem C8_shutdown_drains_witness :
    0 < 4 ∧
    (poolRun poolDemoSched (poolInit [1, 2, 3, 4, 5, 6, 7, 8] 4)).resultsClosed = true ∧
    (↑(poolRun poolDemoSched (poolInit [1, 2, 3, 4, 5, 6, 7, 8] 4)).results : Multiset Nat)
      = ↑([1, 2, 3, 4, 5, 6, 7, 8].map sq) :=
  ⟨by decide, by decide,
    C8_shutdown_drains [1, 2, 3, 4, 5, 6, 7, 8] 4 poolDemoSched (by decide) (by decide)⟩

theorem cancelFrom_get (arena : List TokenNode) (r : Nat) (l : List TokenNode) :
    ∀ i0 k, (cancelFrom arena r i0 l).get? k
      = (l.get? k).map (fun n =>
          if isDescendant arena (i0 + k) r then
            { parent := n.parent, cancelled := true, deadline := n.deadline }
          else n) := by
  induction l with
  | nil => intro i0 k; rfl
  | cons n rest ih =>
    intro i0 k
    cases k with
    | zero => simp [cancelFrom]
    | succ k =>
      have := ih (i0 + 1) k
      simp only [cancelFrom, List.get?_cons_succ, this]
      have harith : i0 + 1 + k = i0 + (k + 1) := by omega
      rw [harith]

theorem parentOf_lt (arena : List TokenNode) (hwf : WFArena arena) (i p : Nat)
    (hp : parentOf arena i = some p) : p < i := by
  unfold parentOf at hp
  cases hg : arena.get? i with
  | none => rw [hg] at hp; exact absurd hp (by simp)
  | some n => rw [hg] at hp; exact hwf i n hg p hp

theorem ancChain_stable (arena : List TokenNode) (hwf : WFArena arena) :
    ∀ i f1 f2, i ≤ f1 → i ≤ f2 → ancChain arena f1 i = ancChain arena f2 i := by
  intro i
  induction i using Nat.strong_induction_on with
  | _ i ih =>
    intro f1 f2 h1 h2
    match f1, f2 with
    | 0, 0 => rfl
    | 0, b + 1 =>
      have hi : i = 0 := Nat.le_zero.mp h1
      subst hi
      simp only [ancChain]
      cases hp : parentOf arena 0 with
      | none => rfl
      | some p => exact absurd (parentOf_lt arena hwf 0 p hp) (by omega)
    | a + 1, 0 =>
      have hi : i = 0 := Nat.le_zero.mp h2
      subst hi
      simp only [ancChain]
      cases hp : parentOf arena 0 with
      | none => rfl
      | some p => exact absurd (parentOf_lt arena hwf 0 p hp) (by omega)
    | a + 1, b + 1 =>
      simp only [ancChain]
      cases hp : parentOf arena i with
      | none => rfl
      | some p =>
        have hpi := parentOf_lt arena hwf i p hp
        exact congrArg (List.cons i) (ih p hpi a b (by omega) (by omega))

theorem tokenChain_parent (arena : List TokenNode) (hwf : WFArena arena) (i p : Nat)
    (hp : parentOf arena i = some p) (hi : i < arena.length) :
    tokenChain arena i = i :: tokenChain arena p := by
  have hpi := parentOf_lt arena hwf i p hp
  unfold tokenChain
  rw [ancChain_stable arena hwf i arena.length (i + 1) (by omega) (by omega)]
  simp only [ancChain, hp]
  rw [ancChain_stable arena hwf p i arena.length (by omega) (by omega)]

theorem tokenChain_root (arena : List TokenNode) (i : Nat)
    (hp : parentOf arena i = none) : tokenChain arena i = [i] := by
  unfold tokenChain
  cases hl : arena.length with
  | zero => rfl
  | succ m => simp [ancChain, hp]

theorem self_mem_ancChain (arena : List TokenNode) (fuel i : Nat) :
    i ∈ ancChain arena fuel i := by
  cases fuel with
  | zero => simp [ancChain]
  | succ f => simp [ancChain]

/-- C4 (spec-modelled, since the context implementation is standard-library
code outside the repository): cancelling token r marks every descendant
token's Err() non-nil; cancellation is monotonic — a cancelled token stays
cancelled across any later cancellation event; in a wellformed arena a
node's effective deadline is the minimum of its own deadline and its
parent's effective deadline (hence of all ancestors' deadlines); and a
child derived by WithCancel is a descendant of its parent. -/
theorem C4_cancellation_tree (arena : List TokenNode) (r : Nat) :
    (∀ d, d < arena.length → isDescendant arena d r = true →
      tokErr (cancelToken arena r) d ≠ none) ∧
    (∀ i, cancelledAt arena i = true → cancelledAt (cancelToken arena r) i = true) ∧
    (WFArena arena → ∀ i n, arena.get? i = some n →
      effDeadline arena i
        = oMinD n.deadline (match n.parent with
            | some p => effDeadline arena p
            | none => none)) ∧
    (∀ p, p < arena.length →
      isDescendant (withCancel arena p).1 (withCancel arena p).2 p = true) := by
  refine ⟨?_, ?_, ?_, ?_⟩
  · intro d hd hdesc
    have hget := cancelFrom_get arena r arena 0 d
    cases hg : arena.get? d with
    | none =>
      rw [List.get?_eq_none] at hg
      omega
    | some n =>
      rw [hg] at hget
      simp only [Nat.zero_add] at hget
      simp [hdesc] at hget
      simp [tokErr, cancelToken, cancelledAt, hget]
  · intro i hcan
    have hget := cancelFrom_get arena r arena 0 i
    cases hg : arena.get? i with
    | none =>
      unfold cancelledAt at hcan
      rw [hg] at hcan
      simp at hcan
    | some n =>
      rw [hg] at hget
      unfold cancelledAt at hcan
      rw [hg] at hcan
      have hcn : n.cancelled = true := hcan
      simp only [Nat.zero_add] at hget
      by_cases hdesc : isDescendant arena i r = true
      · simp [hdesc] at hget
        simp [cancelledAt, cancelToken, hget]
      · simp only [Bool.not_eq_true] at hdesc
        simp [hdesc] at hget
        simp [cancelledAt, cancelToken, hget, hcn]
  · intro hwf i n hg
    have hi : i < arena.length := by
      by_contra hcon
      rw [List.get?_eq_none.mpr (by omega)] at hg
      exact absurd hg (by simp)
    have hg2 : arena[i]? = some n := by
      rw [← List.get?_eq_getElem?]
      exact hg
    have hpar : parentOf arena i = n.parent := by
      unfold parentOf
      rw [hg]
    cases hp : n.parent with
    | none =>
      have hchain := tokenChain_root arena i (hpar.trans hp)
      cases hd : n.deadline with
      | none => simp [effDeadline, chainDeadlines, hchain, hg2, hp, hd, oMinD]
      | some d => simp [effDeadline, chainDeadlines, hchain, hg2, hp, hd, oMinD]
    | some p =>
      have hchain := tokenChain_parent arena hwf i p (hpar.trans hp) hi
      cases hd : n.deadline with
      | none =>
        simp [effDeadline, chainDeadlines, hchain, List.filterMap_cons, hg2, hp, hd, oMinD]
      | some d =>
        simp [effDeadline, chainDeadlines, hchain, List.filterMap_cons, hg2, hp, hd, oMinD]
  · intro p hp
    simp only [withCancel, isDescendant, decide_eq_true_eq]
    have hlen : (arena ++ [cancelChild p]).length = arena.length + 1 := by
      simp
    unfold tokenChain
    rw [hlen]
    simp only [ancChain]
    have hparent : parentOf (arena ++ [cancelChild p]) arena.length = some p := by
      unfold parentOf
      rw [List.get?_concat_length]
      rfl
    rw [hparent]
    exact List.mem_cons_of_mem _ (self_mem_ancChain _ _ _)

/-- C4 instantiated at the concrete four-node token tree with root 0. -/
theorem C4_cancellation_tree_witness :
    (∀ d, d < tokenArenaEx.length → isDescendant tokenArenaEx d 0 = true →
      tokErr (cancelToken tokenArenaEx 0) d ≠ none) ∧
    (∀ i, cancelledAt tokenArenaEx i = true →
      cancelledAt (cancelToken tokenArenaEx 0) i = true) ∧
    (WFArena tokenArenaEx → ∀ i n, tokenArenaEx.get? i = some n →
      effDeadline tokenArenaEx i
        = oMinD n.deadline (match n.parent with
            | some p => effDeadline tokenArenaEx p
            | none => none)) ∧
    (∀ p, p < tokenArenaEx.length →
      isDescendant (withCancel tokenArenaEx p).1 (withCancel tokenArenaEx p).2 p = true) :=
  C4_cancellation_tree tokenArenaEx 0

theorem coe_cons_eq (x : Nat) (l : List Nat) :
    (↑(x :: l) : Multiset Nat) = {x} + ↑l := by
  rw [← Multiset.cons_coe, ← Multiset.singleton_add]

theorem fanConsumed_cons (c a x : Nat) (input sched : List Nat) :
    fanConsumed c (x :: input) (a :: sched)
      = if a = c then x :: fanConsumed c input sched else fanConsumed c input sched := by
  by_cases h : a = c <;> simp [fanConsumed, List.filter_cons, h]

theorem fanConsumed_partition (sched : List Nat) :
    ∀ input : List Nat, sched.length = input.length → (∀ a ∈ sched, a < 3) →
      (↑(fanConsumed 0 input sched) + ↑(fanConsumed 1 input sched)
          + ↑(fanConsumed 2 input sched) : Multiset Nat) = ↑input := by
  induction sched with
  | nil =>
    intro input hlen _
    have hinput : input = [] := by
      cases input with
      | nil => rfl
      | cons x xs => simp at hlen
    subst hinput
    simp [fanConsumed]
  | cons a rest ih =>
    intro input hlen hvalid
    cases input with
    | nil => simp at hlen
    | cons x xs =>
      have hlen2 : rest.length = xs.length := by simpa using hlen
      have hvalid2 : ∀ b ∈ rest, b < 3 := fun b hb => hvalid b (List.mem_cons_of_mem a hb)
      have ha : a < 3 := hvalid a (List.mem_cons_self a rest)
      have hrec := ih xs hlen2 hvalid2
      interval_cases a
      · simp only [fanConsumed_cons, if_pos rfl, if_neg (by omega : ¬ (0 : Nat) = 1),
          if_neg (by omega : ¬ (0 : Nat) = 2), if_true, if_false]
        simp only [coe_cons_eq]
        rw [← hrec]
        abel
      · simp only [fanConsumed_cons, if_pos rfl, if_neg (by omega : ¬ (1 : Nat) = 0),
          if_neg (by omega : ¬ (1 : Nat) = 2), if_true, if_false]
        simp only [coe_cons_eq]
        rw [← hrec]
        abel
      · simp only [fanConsumed_cons, if_pos rfl, if_neg (by omega : ¬ (2 : Nat) = 0),
          if_neg (by omega : ¬ (2 : Nat) = 1), if_true, if_false]
        simp only [coe_cons_eq]
        rw [← hrec]
        abel

/-- C9 counterexample. In FanOutBasic the three competing consumers emit
transformed values (data*2, data*3, data*4), so the multiset union of the
values appearing on the output lanes differs from the input jobs: under the
schedule in which consumer 0 performs every receive, the lanes hold
[2,4,6,8,10,12], [] and [] while the input was 1..6. (The input channel
carries plain ints; no input-stream error or terminal signal exists to be
propagated.) -/
theorem C9_lane_union_counterexample :
    fanLaneOut 0 fanInput [0, 0, 0, 0, 0, 0] = [2, 4, 6, 8, 10, 12] ∧
    fanLaneOut 1 fanInput [0, 0, 0, 0, 0, 0] = [] ∧
    fanLaneOut 2 fanInput [0, 0, 0, 0, 0, 0] = [] ∧
    ¬ (↑(fanLaneOut 0 fanInput [0, 0, 0, 0, 0, 0])
        + ↑(fanLaneOut 1 fanInput [0, 0, 0, 0, 0, 0])
        + ↑(fanLaneOut 2 fanInput [0, 0, 0, 0, 0, 0]) : Multiset Nat) = ↑fanInput := by
  decide

/-- C9 amended: in FanOutBasic each input value is received by exactly one
of the three competing consumers, so for every receive schedule the multiset
union of the jobs consumed across the three lanes equals the input — no
duplication, no drop; each lane then emits its consumed jobs scaled by its
own factor (2, 3 or 4), so the emitted lane values are the scaled images of
that partition rather than the input itself, and no error/terminal signal
exists on the int-carrying channels. -/
theorem C9_fanout_amended (input sched : List Nat)
    (hlen : sched.length = input.length) (hvalid : ∀ a ∈ sched, a < 3) :
    ((↑(fanConsumed 0 input sched) + ↑(fanConsumed 1 input sched)
        + ↑(fanConsumed 2 input sched) : Multiset Nat) = ↑input) ∧
    (∀ c, (↑(fanLaneOut c input sched) : Multiset Nat)
        = Multiset.map (fun d => d * (c + 2)) ↑(fanConsumed c input sched)) := by
  refine ⟨fanConsumed_partition sched input hlen hvalid, ?_⟩
  intro c
  simp [fanLaneOut, Multiset.map_coe]

/-- C9 amended, instantiated at the demo's input 1..6 and a schedule in
which the consumers alternate receives. -/
theorem C9_fanout_amended_witness :
    ((↑(fanConsumed 0 fanInput [0, 1, 2, 0, 1, 2])
        + ↑(fanConsumed 1 fanInput [0, 1, 2, 0, 1, 2])
        + ↑(fanConsumed 2 fanInput [0, 1, 2, 0, 1, 2]) : Multiset Nat) = ↑fanInput) ∧
    (∀ c, (↑(fanLaneOut c fanInput [0, 1, 2, 0, 1, 2]) : Multiset Nat)
        = Multiset.map (fun d => d * (c + 2)) ↑(fanConsumed c fanInput [0, 1, 2, 0, 1, 2])) :=
  C9_fanout_amended fanInput [0, 1, 2, 0, 1, 2] (by decide) (by decide)

end GoPractice

